import Mathlib

/-!
Verification development for the allyapi command-line client
(src/allyapi.go): a shallow embedding, in Lean 4, of the API call
pipeline — the polymorphic quote-payload decoder
(`quoteArray.UnmarshalJSON`), the timestamp parser (`timestampToDate`),
the rate-limit header update scheduled by `doAPICall`, request
construction, and the decode/print loop — together with theorems
settling the specification's claims about them.

Modelling conventions:
* Go byte slices are `List Char` (the payloads here are ASCII).
* Go `map[string]string` is an insertion-ordered association list
  `List (String × String)`; JSON objects keep their key order.  (A Go
  map would keep only the last duplicate key; no claim involves
  duplicate-key objects.)
* Fallible Go code returns `Except GoError`; a Go runtime panic
  (index out of range) is modelled by `Option.none` or a dedicated
  `panicked` constructor, since the panicking function never returns.
* `encoding/json`'s recursive-descent work inside `json.Unmarshal` is
  modelled by executable parsers over `List Char`; the member loops
  carry explicit fuel (initialised to the input length plus one, which
  bounds the number of members) to make the recursion structural.
-/

namespace AllyApi

/-- Errors produced by the decode pipeline: `noInput` is the
`errors.New("No input")` value of `quoteArray.UnmarshalJSON`; the other
constructors stand for `encoding/json` unmarshalling errors. -/
inductive GoError where
  | noInput
  | malformed (msg : String)
  | typeMismatch (msg : String)
deriving DecidableEq, Repr

/-- The Go type `quoteArray = []map[string]string` (src/allyapi.go line 34). -/
abbrev QuoteArray := List (List (String × String))

/-- JSON insignificant whitespace, as `encoding/json` skips it. -/
def isJsonWs (c : Char) : Bool :=
  c = ' ' || c = '\t' || c = '\n' || c = '\r'

/-- Drop leading JSON whitespace. -/
def skipWs : List Char → List Char
  | [] => []
  | c :: cs => if isJsonWs c then skipWs cs else c :: cs

/-- The character a two-character JSON string escape `\c` stands for;
`none` for an escape this model does not support. -/
def unescape (c : Char) : Option Char :=
  if c = '"' then some '"'
  else if c = '\\' then some '\\'
  else if c = '/' then some '/'
  else if c = 'n' then some '\n'
  else if c = 't' then some '\t'
  else if c = 'r' then some '\r'
  else none

/-- Parse the body of a JSON string (the opening quote already
consumed) up to and including the closing quote; returns the decoded
characters and the remaining input. -/
def parseStringBody : List Char → Except GoError (List Char × List Char)
  | [] => .error (.malformed "unexpected end of JSON string")
  | c :: rest =>
    if c = '"' then .ok ([], rest)
    else if c = '\\' then
      match rest with
      | [] => .error (.malformed "unexpected end of JSON escape")
      | e :: rest2 =>
        match unescape e with
        | some d =>
          match parseStringBody rest2 with
          | .ok (s, r) => .ok (d :: s, r)
          | .error err => .error err
        | none => .error (.malformed "unsupported JSON escape")
    else
      match parseStringBody rest with
      | .ok (s, r) => .ok (c :: s, r)
      | .error err => .error err

/-- Parse a JSON string literal starting at an opening quote. -/
def parseJString (l : List Char) : Except GoError (String × List Char) :=
  match l with
  | [] => .error (.typeMismatch "json: expected string")
  | c :: rest =>
    if c = '"' then
      match parseStringBody rest with
      | .ok (s, r) => .ok (String.mk s, r)
      | .error err => .error err
    else .error (.typeMismatch "json: expected string")

/-- Parse a JSON value destined for a Go `string`: a string literal, or
the literal `null` (which `encoding/json` decodes into a `string` as a
no-op, leaving the zero value `""`).  The branch is chosen on the first
byte, as the decoder's scanner does. -/
def parseJStringValue (l : List Char) : Except GoError (String × List Char) :=
  match l with
  | [] => .error (.typeMismatch "json: expected string")
  | c :: rest =>
    if c = 'n' then
      match rest with
      | 'u' :: 'l' :: 'l' :: r => .ok ("", r)
      | _ => .error (.malformed "invalid JSON literal")
    else parseJString (c :: rest)

/-- Parse the members of a JSON object being decoded into
`map[string]string`, positioned at the first key; consumes through the
closing brace.  The fuel bounds the number of members. -/
def parsePairs : Nat → List Char → Except GoError (List (String × String) × List Char)
  | 0, _ => .error (.malformed "json object too large")
  | fuel + 1, l =>
    match parseJString l with
    | .error err => .error err
    | .ok (k, r1) =>
      match skipWs r1 with
      | [] => .error (.malformed "json: expected colon")
      | c :: r2 =>
        if c = ':' then
          match parseJStringValue (skipWs r2) with
          | .error err => .error err
          | .ok (v, r3) =>
            match skipWs r3 with
            | [] => .error (.malformed "json: expected comma or closing brace")
            | d :: r4 =>
              if d = '}' then .ok ([(k, v)], r4)
              else if d = ',' then
                match parsePairs fuel (skipWs r4) with
                | .ok (rest, r5) => .ok ((k, v) :: rest, r5)
                | .error err => .error err
              else .error (.malformed "json: expected comma or closing brace")
        else .error (.malformed "json: expected colon")

/-- Parse one JSON object into `map[string]string` members, starting at
the opening brace. -/
def parseStringMap (fuel : Nat) (l : List Char) :
    Except GoError (List (String × String) × List Char) :=
  match l with
  | [] => .error (.typeMismatch "json: cannot unmarshal value into map[string]string")
  | c :: r =>
    if c = '{' then
      match skipWs r with
      | [] => .error (.malformed "json: unexpected end of object")
      | d :: r2 =>
        if d = '}' then .ok ([], r2)
        else parsePairs fuel (d :: r2)
    else .error (.typeMismatch "json: cannot unmarshal value into map[string]string")

/-- Parse one element of a JSON array being decoded into
`[]map[string]string`: an object, or the literal `null` (which decodes
to a nil map). -/
def parseMapElem (fuel : Nat) (l : List Char) :
    Except GoError (List (String × String) × List Char) :=
  match l with
  | [] => .error (.typeMismatch "json: cannot unmarshal value into map[string]string")
  | c :: rest =>
    if c = 'n' then
      match rest with
      | 'u' :: 'l' :: 'l' :: r => .ok ([], r)
      | _ => .error (.malformed "invalid JSON literal")
    else parseStringMap fuel (c :: rest)

/-- Parse the elements of a JSON array being decoded into
`[]map[string]string`, positioned at the first element; consumes
through the closing bracket.  The fuel bounds the number of
elements. -/
def parseMapElems : Nat → List Char → Except GoError (QuoteArray × List Char)
  | 0, _ => .error (.malformed "json array too large")
  | fuel + 1, l =>
    match parseMapElem (fuel + 1) l with
    | .error err => .error err
    | .ok (m, r1) =>
      match skipWs r1 with
      | [] => .error (.malformed "json: expected comma or closing bracket")
      | c :: r2 =>
        if c = ']' then .ok ([m], r2)
        else if c = ',' then
          match parseMapElems fuel (skipWs r2) with
          | .ok (ms, r3) => .ok (m :: ms, r3)
          | .error err => .error err
        else .error (.malformed "json: expected comma or closing bracket")

/-- Parse one JSON array into `[]map[string]string`, starting at the
opening bracket. -/
def parseMapsList (fuel : Nat) (l : List Char) :
    Except GoError (QuoteArray × List Char) :=
  match l with
  | [] => .error (.typeMismatch "json: cannot unmarshal value into slice")
  | c :: r =>
    if c = '[' then
      match skipWs r with
      | [] => .error (.malformed "json: unexpected end of array")
      | d :: r2 =>
        if d = ']' then .ok ([], r2)
        else parseMapElems fuel (d :: r2)
    else .error (.typeMismatch "json: cannot unmarshal value into slice")

/-- The call `json.Unmarshal(data, &mp)` with `mp : map[string]string`
(src/allyapi.go line 72): the whole input must be one object followed
by at most whitespace. -/
def unmarshalStringMap (data : List Char) : Except GoError (List (String × String)) :=
  match parseStringMap (data.length + 1) data with
  | .error err => .error err
  | .ok (m, r) =>
    match skipWs r with
    | [] => .ok m
    | _ => .error (.malformed "json: trailing data after top-level value")

/-- The call `json.Unmarshal(data, &q)` with `q : []map[string]string`
(src/allyapi.go line 66): the whole input must be one array followed
by at most whitespace. -/
def unmarshalMapsList (data : List Char) : Except GoError QuoteArray :=
  match parseMapsList (data.length + 1) data with
  | .error err => .error err
  | .ok (q, r) =>
    match skipWs r with
    | [] => .ok q
    | _ => .error (.malformed "json: trailing data after top-level value")

/-- The method `quoteArray.UnmarshalJSON` (src/allyapi.go lines 59-78):
empty input is the error "No input"; a leading `[` decodes the data as
`[]map[string]string` and replaces the receiver; a leading `{` decodes
a single map and wraps it in a one-element slice; any other leading
byte falls through the switch and returns nil, leaving the receiver
`qa` unchanged. -/
def unmarshalQuoteArray (data : List Char) (qa : QuoteArray) :
    Except GoError QuoteArray :=
  match data with
  | [] => .error .noInput
  | c :: _ =>
    if c = '[' then
      match unmarshalMapsList data with
      | .ok q => .ok q
      | .error err => .error err
    else if c = '{' then
      match unmarshalStringMap data with
      | .ok mp => .ok [mp]
      | .error err => .error err
    else
      .ok qa

end AllyApi

namespace AllyApi

theorem skipWs_eq_nil_append {l : List Char} (ext : List Char) (h : skipWs l = []) :
    skipWs (l ++ ext) = skipWs ext := by
  induction l with
  | nil => rfl
  | cons c cs ih =>
    simp only [skipWs, List.cons_append] at h ⊢
    by_cases hc : isJsonWs c
    · simp only [hc, if_true] at h ⊢
      exact ih h
    · simp [hc] at h

theorem skipWs_cons_append {l r : List Char} {c : Char} (ext : List Char)
    (h : skipWs l = c :: r) : skipWs (l ++ ext) = c :: (r ++ ext) := by
  induction l with
  | nil => simp [skipWs] at h
  | cons a as ih =>
    simp only [skipWs, List.cons_append] at h ⊢
    by_cases ha : isJsonWs a
    · simp only [ha, if_true] at h ⊢
      exact ih h
    · simp only [ha, Bool.false_eq_true, if_false, List.cons.injEq] at h ⊢
      obtain ⟨rfl, rfl⟩ := h
      exact ⟨rfl, rfl⟩

theorem skipWs_append_of_ne_nil {l : List Char} (ext : List Char) (h : skipWs l ≠ []) :
    skipWs (l ++ ext) = skipWs l ++ ext := by
  cases hs : skipWs l with
  | nil => exact absurd hs h
  | cons c r => rw [skipWs_cons_append ext hs, List.cons_append]

theorem parseStringBody_append {l : List Char} (ext : List Char) :
    ∀ {s r : List Char}, parseStringBody l = .ok (s, r) →
    parseStringBody (l ++ ext) = .ok (s, r ++ ext) := by
  induction l using parseStringBody.induct with
  | case1 =>
    intro s r h
    simp [parseStringBody] at h
  | case2 cs =>
    intro s r h
    rw [parseStringBody.eq_def] at h
    simp at h
    obtain ⟨rfl, rfl⟩ := h
    rw [List.cons_append, parseStringBody.eq_def]
    simp
  | case3 =>
    intro s r h
    rw [parseStringBody.eq_def] at h
    simp +decide at h
  | case4 c cs d hu s0 r0 hp hne ih =>
    intro s r h
    rw [parseStringBody.eq_def] at h
    simp only [hu, hp] at h
    simp +decide at h
    obtain ⟨rfl, rfl⟩ := h
    rw [List.cons_append, List.cons_append, parseStringBody.eq_def]
    simp +decide [hu, ih hp]
  | case5 c cs d hu err hp hne ih =>
    intro s r h
    rw [parseStringBody.eq_def] at h
    simp only [hu, hp] at h
    simp +decide at h
  | case6 c cs hu hne =>
    intro s r h
    rw [parseStringBody.eq_def] at h
    simp only [hu] at h
    simp +decide at h
  | case7 c cs h1 h2 s0 r0 hp ih =>
    intro s r h
    rw [parseStringBody.eq_def] at h
    simp only [h1, h2, if_false, hp, Except.ok.injEq, Prod.mk.injEq] at h
    obtain ⟨rfl, rfl⟩ := h
    rw [List.cons_append, parseStringBody.eq_def]
    simp only [h1, h2, if_false, ih hp]
  | case8 c cs h1 h2 err hp ih =>
    intro s r h
    rw [parseStringBody.eq_def] at h
    simp only [h1, h2, if_false, hp] at h
    simp at h

end AllyApi

namespace AllyApi

theorem parseJString_ok_shape {l : List Char} {x : String × List Char}
    (h : parseJString l = .ok x) : ∃ t, l = '"' :: t := by
  match l with
  | [] => simp [parseJString] at h
  | c :: rest =>
    by_cases hc : c = '"'
    · exact ⟨rest, by rw [hc]⟩
    · rw [parseJString.eq_def] at h
      simp [hc] at h

theorem parseJString_append {l : List Char} (ext : List Char) {s : String}
    {r : List Char} (h : parseJString l = .ok (s, r)) :
    parseJString (l ++ ext) = .ok (s, r ++ ext) := by
  obtain ⟨t, rfl⟩ := parseJString_ok_shape h
  rw [parseJString.eq_def] at h
  simp only [if_true] at h
  cases hb : parseStringBody t with
  | error err =>
    rw [hb] at h
    simp at h
  | ok sr =>
    obtain ⟨s0, r0⟩ := sr
    rw [hb] at h
    simp at h
    obtain ⟨rfl, rfl⟩ := h
    rw [List.cons_append, parseJString.eq_def]
    simp [parseStringBody_append ext hb]

theorem parseJStringValue_nil_ne_ok {x : String × List Char} :
    parseJStringValue [] ≠ .ok x := by
  simp [parseJStringValue]

theorem parseJStringValue_append {l : List Char} (ext : List Char) {s : String}
    {r : List Char} (h : parseJStringValue l = .ok (s, r)) :
    parseJStringValue (l ++ ext) = .ok (s, r ++ ext) := by
  match l with
  | [] => exact absurd h parseJStringValue_nil_ne_ok
  | c :: rest =>
    rw [parseJStringValue.eq_def] at h
    by_cases hc : c = 'n'
    · subst hc
      simp only [if_true] at h
      rw [List.cons_append, parseJStringValue.eq_def]
      simp only [if_true]
      split at h
      · next rr =>
        simp at h
        obtain ⟨rfl, rfl⟩ := h
        rfl
      · next hne =>
        simp at h
    · simp only [hc, if_false] at h
      rw [List.cons_append, parseJStringValue.eq_def]
      simp only [hc, if_false]
      rw [← List.cons_append]
      exact parseJString_append ext h

end AllyApi

namespace AllyApi

theorem parsePairs_nil_ne_ok (fuel : Nat) {x : List (String × String) × List Char} :
    parsePairs fuel [] ≠ .ok x := by
  cases fuel with
  | zero => rw [parsePairs.eq_def]; simp
  | succ f => rw [parsePairs.eq_def]; simp [parseJString]

theorem parsePairs_append (ext : List Char) :
    ∀ (fuel : Nat) {l : List Char} {m : List (String × String)} {r : List Char},
    parsePairs fuel l = .ok (m, r) →
    parsePairs fuel (l ++ ext) = .ok (m, r ++ ext) := by
  intro fuel
  induction fuel with
  | zero =>
    intro l m r h
    rw [parsePairs.eq_def] at h
    simp at h
  | succ fuel ih =>
    intro l m r h
    rw [parsePairs.eq_2] at h
    rw [parsePairs.eq_2]
    cases hj : parseJString l with
    | error err =>
      rw [hj] at h
      simp at h
    | ok kr =>
      obtain ⟨k, r1⟩ := kr
      rw [hj] at h
      rw [parseJString_append ext hj]
      simp only [] at h ⊢
      cases hs1 : skipWs r1 with
      | nil =>
        rw [hs1] at h
        simp at h
      | cons c r2 =>
        rw [hs1] at h
        rw [skipWs_cons_append ext hs1]
        by_cases hc : c = ':'
        · subst hc
          simp only [if_true] at h ⊢
          cases hv : parseJStringValue (skipWs r2) with
          | error err =>
            rw [hv] at h
            simp at h
          | ok vr =>
            obtain ⟨v, r3⟩ := vr
            rw [hv] at h
            have hr2 : skipWs r2 ≠ [] := by
              intro hnil
              rw [hnil] at hv
              exact parseJStringValue_nil_ne_ok hv
            rw [skipWs_append_of_ne_nil ext hr2]
            rw [parseJStringValue_append ext hv]
            simp only [] at h ⊢
            cases hs3 : skipWs r3 with
            | nil =>
              rw [hs3] at h
              simp at h
            | cons d r4 =>
              rw [hs3] at h
              rw [skipWs_cons_append ext hs3]
              by_cases hd : d = '}'
              · subst hd
                simp +decide at h ⊢
                obtain ⟨rfl, rfl⟩ := h
                exact ⟨rfl, rfl⟩
              · by_cases hd2 : d = ','
                · subst hd2
                  simp only [hd, if_false, if_true] at h ⊢
                  cases hp : parsePairs fuel (skipWs r4) with
                  | error err =>
                    rw [hp] at h
                    simp at h
                  | ok pr =>
                    obtain ⟨rest, r5⟩ := pr
                    rw [hp] at h
                    simp at h
                    obtain ⟨rfl, rfl⟩ := h
                    have hr4 : skipWs r4 ≠ [] := by
                      intro hnil
                      rw [hnil] at hp
                      exact parsePairs_nil_ne_ok fuel hp
                    rw [skipWs_append_of_ne_nil ext hr4]
                    rw [ih hp]
                · simp [hd, hd2] at h
        · simp [hc] at h

end AllyApi

namespace AllyApi

theorem parsePairs_mono :
    ∀ (fuel : Nat) {fuel2 : Nat}, fuel ≤ fuel2 →
    ∀ {l : List Char} {x : List (String × String) × List Char},
    parsePairs fuel l = .ok x → parsePairs fuel2 l = .ok x := by
  intro fuel
  induction fuel with
  | zero =>
    intro fuel2 hle l x h
    rw [parsePairs.eq_def] at h
    simp at h
  | succ fuel ih =>
    intro fuel2 hle l x h
    cases fuel2 with
    | zero => exact absurd hle (by omega)
    | succ f2 =>
      rw [parsePairs.eq_2] at h
      rw [parsePairs.eq_2]
      cases hj : parseJString l with
      | error err =>
        rw [hj] at h
        simp at h
      | ok kr =>
        obtain ⟨k, r1⟩ := kr
        rw [hj] at h
        simp only [] at h ⊢
        cases hs1 : skipWs r1 with
        | nil =>
          rw [hs1] at h
          simp at h
        | cons c r2 =>
          rw [hs1] at h
          by_cases hc : c = ':'
          · subst hc
            simp only [if_true] at h ⊢
            cases hv : parseJStringValue (skipWs r2) with
            | error err =>
              rw [hv] at h
              simp at h
            | ok vr =>
              obtain ⟨v, r3⟩ := vr
              rw [hv] at h
              simp only [] at h ⊢
              cases hs3 : skipWs r3 with
              | nil =>
                rw [hs3] at h
                simp at h
              | cons d r4 =>
                rw [hs3] at h
                by_cases hd : d = '}'
                · subst hd
                  simp at h ⊢
                  exact h
                · by_cases hd2 : d = ','
                  · subst hd2
                    simp only [hd, if_false, if_true] at h ⊢
                    cases hp : parsePairs fuel (skipWs r4) with
                    | error err =>
                      rw [hp] at h
                      simp at h
                    | ok pr =>
                      rw [hp] at h
                      rw [ih (by omega) hp]
                      exact h
                  · simp [hd, hd2] at h
          · simp [hc] at h

theorem parseStringMap_ok_shape {fuel : Nat} {l : List Char}
    {x : List (String × String) × List Char} (h : parseStringMap fuel l = .ok x) :
    ∃ t, l = '{' :: t := by
  match l with
  | [] => simp [parseStringMap] at h
  | c :: rest =>
    by_cases hc : c = '{'
    · exact ⟨rest, by rw [hc]⟩
    · rw [parseStringMap.eq_def] at h
      simp [hc] at h

theorem parseStringMap_append (ext : List Char) {fuel : Nat} {l : List Char}
    {m : List (String × String)} {r : List Char}
    (h : parseStringMap fuel l = .ok (m, r)) :
    parseStringMap fuel (l ++ ext) = .ok (m, r ++ ext) := by
  obtain ⟨t, rfl⟩ := parseStringMap_ok_shape h
  rw [parseStringMap.eq_def] at h
  rw [List.cons_append, parseStringMap.eq_def]
  simp only [if_true] at h ⊢
  cases hs : skipWs t with
  | nil =>
    rw [hs] at h
    simp at h
  | cons d r2 =>
    rw [hs] at h
    rw [skipWs_cons_append ext hs]
    by_cases hd : d = '}'
    · subst hd
      simp at h ⊢
      obtain ⟨rfl, rfl⟩ := h
      exact ⟨rfl, rfl⟩
    · simp only [hd, if_false] at h ⊢
      rw [← List.cons_append]
      exact parsePairs_append ext fuel h

theorem parseStringMap_mono {fuel fuel2 : Nat} (hle : fuel ≤ fuel2) {l : List Char}
    {x : List (String × String) × List Char} (h : parseStringMap fuel l = .ok x) :
    parseStringMap fuel2 l = .ok x := by
  obtain ⟨t, rfl⟩ := parseStringMap_ok_shape h
  rw [parseStringMap.eq_def] at h
  rw [parseStringMap.eq_def]
  simp only [if_true] at h ⊢
  cases hs : skipWs t with
  | nil =>
    rw [hs] at h
    simp at h
  | cons d r2 =>
    rw [hs] at h
    by_cases hd : d = '}'
    · subst hd
      simp at h ⊢
      exact h
    · simp only [hd, if_false] at h ⊢
      exact parsePairs_mono fuel hle h

theorem parseMapsList_ok_shape {fuel : Nat} {l : List Char}
    {x : QuoteArray × List Char} (h : parseMapsList fuel l = .ok x) :
    ∃ t, l = '[' :: t := by
  match l with
  | [] => simp [parseMapsList] at h
  | c :: rest =>
    by_cases hc : c = '['
    · exact ⟨rest, by rw [hc]⟩
    · rw [parseMapsList.eq_def] at h
      simp [hc] at h

theorem unmarshalStringMap_ok_parts {data : List Char} {m : List (String × String)}
    (h : unmarshalStringMap data = .ok m) :
    ∃ r, parseStringMap (data.length + 1) data = .ok (m, r) ∧ skipWs r = [] := by
  unfold unmarshalStringMap at h
  cases hp : parseStringMap (data.length + 1) data with
  | error err =>
    rw [hp] at h
    simp at h
  | ok mr =>
    obtain ⟨m0, r⟩ := mr
    rw [hp] at h
    simp only [] at h
    cases hs : skipWs r with
    | nil =>
      rw [hs] at h
      simp at h
      subst h
      exact ⟨r, rfl, hs⟩
    | cons c t =>
      rw [hs] at h
      simp at h

end AllyApi

namespace AllyApi

theorem unmarshalQuoteArray_of_obj {data : List Char} {m : List (String × String)}
    (old : QuoteArray) (h : unmarshalStringMap data = .ok m) :
    unmarshalQuoteArray data old = .ok [m] := by
  obtain ⟨r, hp, hs⟩ := unmarshalStringMap_ok_parts h
  obtain ⟨t, rfl⟩ := parseStringMap_ok_shape hp
  unfold unmarshalQuoteArray
  simp +decide [h]

theorem unmarshalMapsList_wrap {data : List Char} {m : List (String × String)}
    (h : unmarshalStringMap data = .ok m) :
    unmarshalMapsList ('[' :: (data ++ [']'])) = .ok [m] := by
  obtain ⟨r, hp, hs⟩ := unmarshalStringMap_ok_parts h
  obtain ⟨t, rfl⟩ := parseStringMap_ok_shape hp
  have hp4 : parseStringMap ((t.length + 3) + 1) ('{' :: (t ++ [']'])) = .ok (m, r ++ [']']) := by
    have h2 := parseStringMap_append [']'] hp
    rw [List.cons_append] at h2
    have hl : ('{' :: t).length = t.length + 1 := by simp
    refine parseStringMap_mono ?_ h2
    omega
  have hsk1 : skipWs (('{' :: t) ++ [']']) = '{' :: (t ++ [']']) := by
    rw [List.cons_append]
    simp +decide [skipWs]
  have hsk2 : skipWs (r ++ [']']) = [']'] := by
    rw [skipWs_eq_nil_append [']'] hs]
    simp +decide [skipWs]
  have hlist : parseMapsList (('[' :: (('{' :: t) ++ [']'])).length + 1)
      ('[' :: (('{' :: t) ++ [']'])) = .ok ([m], []) := by
    have hlen : ('[' :: (('{' :: t) ++ [']'])).length + 1 = (t.length + 3) + 1 := by
      simp
    rw [hlen]
    rw [parseMapsList.eq_def]
    simp +decide only [if_true]
    rw [hsk1]
    have helems : parseMapElems ((t.length + 3) + 1) ('{' :: (t ++ [']'])) = .ok ([m], []) := by
      rw [parseMapElems.eq_2]
      have helem : parseMapElem ((t.length + 3) + 1) ('{' :: (t ++ [']'])) = .ok (m, r ++ [']']) := by
        rw [parseMapElem.eq_def]
        simp +decide only []
        exact hp4
      rw [helem]
      simp only []
      rw [hsk2]
      simp +decide
    simp +decide [helems]
  unfold unmarshalMapsList
  rw [hlist]
  simp [skipWs]

theorem unmarshalQuoteArray_of_arr {data : List Char} {q : QuoteArray}
    (old : QuoteArray) (h : unmarshalMapsList data = .ok q) :
    unmarshalQuoteArray data old = .ok q := by
  have hshape : ∃ t, data = '[' :: t := by
    unfold unmarshalMapsList at h
    cases hp : parseMapsList (data.length + 1) data with
    | error err =>
      rw [hp] at h
      simp at h
    | ok qr => exact parseMapsList_ok_shape hp
  obtain ⟨t, rfl⟩ := hshape
  unfold unmarshalQuoteArray
  simp +decide [h]

theorem unmarshalQuoteArray_other_byte {c : Char} {rest : List Char}
    (old : QuoteArray) (h1 : c ≠ '[') (h2 : c ≠ '{') :
    unmarshalQuoteArray (c :: rest) old = .ok old := by
  unfold unmarshalQuoteArray
  simp [h1, h2]

end AllyApi

namespace AllyApi

/-- C1 (amended): decoding a raw quotes value inspects its first byte: empty
input fails with the "No input" error; a leading bracket decodes the value as a
sequence of string-to-string mappings; a leading brace decodes a single mapping
and wraps it in a one-element sequence; any other leading byte is silently
accepted, returning success with the receiver unchanged (the switch in
`quoteArray.UnmarshalJSON` has no default case), not a `DecodeError`. -/
theorem unmarshalQuoteArray_first_byte_dispatch :
    (∀ old : QuoteArray, unmarshalQuoteArray [] old = .error .noInput) ∧
    (∀ (data : List Char) (q old : QuoteArray),
      unmarshalMapsList data = .ok q → unmarshalQuoteArray data old = .ok q) ∧
    (∀ (data : List Char) (m : List (String × String)) (old : QuoteArray),
      unmarshalStringMap data = .ok m → unmarshalQuoteArray data old = .ok [m]) ∧
    (∀ (c : Char) (rest : List Char) (old : QuoteArray), c ≠ '[' → c ≠ '{' →
      unmarshalQuoteArray (c :: rest) old = .ok old) :=
  ⟨fun _ => rfl,
   fun _ _ old h => unmarshalQuoteArray_of_arr old h,
   fun _ _ old h => unmarshalQuoteArray_of_obj old h,
   fun _ _ old h1 h2 => unmarshalQuoteArray_other_byte old h1 h2⟩

/-- Witness for the dispatch theorem at concrete inputs: an array payload, an
object payload, and a payload starting with another byte. -/
theorem unmarshalQuoteArray_first_byte_dispatch_witness :
    unmarshalQuoteArray ['[', '{', '}', ']'] [] = .ok [[]] ∧
    unmarshalQuoteArray ['{', '"', 's', '"', ':', '"', 'v', '"', '}'] [[("z", "z")]]
      = .ok [[("s", "v")]] ∧
    unmarshalQuoteArray ['t', 'r', 'u', 'e'] [[("z", "z")]] = .ok [[("z", "z")]] :=
  ⟨unmarshalQuoteArray_first_byte_dispatch.2.1 _ _ _ (by rfl),
   unmarshalQuoteArray_first_byte_dispatch.2.2.1 _ _ _ (by rfl),
   unmarshalQuoteArray_first_byte_dispatch.2.2.2 _ _ _ (by decide) (by decide)⟩

/-- C1 counterexample: a raw quotes value whose first byte is neither a bracket
nor a brace (here the valid JSON value `null`, or the byte `x`) does NOT fail:
`quoteArray.UnmarshalJSON` returns success and leaves the receiver unchanged,
contradicting the claim that every such input fails with a `DecodeError`. -/
theorem unmarshalQuoteArray_other_byte_no_error :
    unmarshalQuoteArray ['n', 'u', 'l', 'l'] [] = .ok [] ∧
    unmarshalQuoteArray ['x'] [] = .ok [] :=
  ⟨rfl, rfl⟩

/-- C2: for every byte sequence that decodes as a single string-to-string JSON
object, decoding it as a `quoteArray` yields the one-element sequence holding
that mapping, and decoding the same bytes wrapped in a JSON array yields the
same one-element sequence. -/
theorem quote_decoder_object_array_equivalence
    (data : List Char) (m : List (String × String)) (old : QuoteArray)
    (h : unmarshalStringMap data = .ok m) :
    unmarshalQuoteArray data old = .ok [m] ∧
    unmarshalQuoteArray ('[' :: (data ++ [']'])) old = .ok [m] :=
  ⟨unmarshalQuoteArray_of_obj old h,
   unmarshalQuoteArray_of_arr old (unmarshalMapsList_wrap h)⟩

/-- Witness for the object-vs-array equivalence at a concrete quote object. -/
theorem quote_decoder_object_array_equivalence_witness :
    unmarshalQuoteArray ['{', '"', 'a', '"', ':', '"', 'b', '"', '}'] [] = .ok [[("a", "b")]] ∧
    unmarshalQuoteArray ('[' :: (['{', '"', 'a', '"', ':', '"', 'b', '"', '}'] ++ [']'])) []
      = .ok [[("a", "b")]] :=
  quote_decoder_object_array_equivalence _ _ _ (by rfl)

end AllyApi

namespace AllyApi

/-- The largest int64, as `strconv` clamps to it on range errors. -/
def maxInt64 : Int := 2 ^ 63 - 1

/-- The smallest int64. -/
def minInt64 : Int := -(2 ^ 63)

/-- The call `strconv.ParseInt(s, 10, 64)` (also `strconv.Atoi` on a 64-bit
platform), returning the parsed value and an error flag: a syntax error
returns 0 with an error, a range error returns the clamped bound with an
error, and the callers in src/allyapi.go use the returned value either
way. -/
def goParseIntChars (l : List Char) : Int × Bool :=
  match l with
  | [] => (0, true)
  | c :: rest =>
    let sd : Int × List Char :=
      if c = '+' then (1, rest)
      else if c = '-' then (-1, rest)
      else (1, c :: rest)
    if sd.2 = [] then (0, true)
    else if sd.2.all (fun d => d.isDigit) then
      let v : Nat := sd.2.foldl (fun acc d => acc * 10 + (d.toNat - '0'.toNat)) 0
      let signed : Int := sd.1 * (v : Int)
      if signed > maxInt64 then (maxInt64, true)
      else if signed < minInt64 then (minInt64, true)
      else (signed, false)
    else (0, true)

/-- The call `strings.Split(str, ".")` (src/allyapi.go line 83), at the
character level: the separators are removed and the pieces between them
kept, so an input with n dots yields n+1 (possibly empty) segments. -/
def goSplitDot : List Char → List (List Char)
  | [] => [[]]
  | c :: rest =>
    if c = '.' then [] :: goSplitDot rest
    else
      match goSplitDot rest with
      | s :: ss => (c :: s) :: ss
      | [] => [[c]]

/-- The value `time.Unix(sec, nsec)`: a wall-clock instant held as whole
seconds since the Unix epoch plus nanoseconds normalized into
[0, 1e9). -/
structure GoTime where
  sec : Int
  nsec : Int
deriving DecidableEq, Repr

/-- `time.Unix` normalizes out-of-range nanoseconds by moving whole
seconds (floor division, as Go's loop does). -/
def timeUnix (sec nsec : Int) : GoTime :=
  { sec := sec + Int.ediv nsec 1000000000, nsec := Int.emod nsec 1000000000 }

/-- The loop of `timestampToDate` (src/allyapi.go lines 83-90): walk the
dot-separated segments with their indices, skip empty segments, parse
the others into the two-element array.  A non-empty segment at index 2
or later writes past the end of `timestampArr` — an index-out-of-range
panic, modelled as `none`. -/
def timestampLoop : Nat → List (List Char) → Int × Int → Option (Int × Int)
  | _, [], arr => some arr
  | i, s :: rest, arr =>
    if s = [] then timestampLoop (i + 1) rest arr
    else if 2 ≤ i then none
    else
      let v := (goParseIntChars s).1
      timestampLoop (i + 1) rest (if i = 0 then (v, arr.2) else (arr.1, v))

/-- The function `timestampToDate` (src/allyapi.go lines 80-92): split
the input on dots, parse the seconds and nanoseconds segments, and
return `time.Unix(arr[0], arr[1])`; `none` models the panic on a third
non-empty segment. -/
def timestampToDate (str : String) : Option GoTime :=
  (timestampLoop 0 (goSplitDot str.toList) (0, 0)).map fun a => timeUnix a.1 a.2

/-- An `http.Header`: canonical keys to value lists. -/
abbrev Headers := List (String × List String)

/-- `resp.Header[k]`: a missing key yields the nil (empty) slice. -/
def headerGet (hs : Headers) (k : String) : List String :=
  match hs.lookup k with
  | some vs => vs
  | none => []

/-- The low-budget warning printed by the rate-limit goroutine: the
remaining-call count it reports and the expiration parsed from the
expire header. -/
structure RateLimitWarning where
  remaining : Int
  expiresAt : GoTime
deriving DecidableEq, Repr

/-- What one run of the rate-limit goroutine leaves behind: the stored
`APICallsRemaining`, whether the parse failure was logged, and the
warning it printed, if any. -/
structure RateLimitState where
  callsRemaining : Int
  loggedParseFailure : Bool
  warning : Option RateLimitWarning
deriving DecidableEq, Repr

/-- A goroutine run either completes or panics (crashing the process). -/
inductive UpdateOutcome where
  | panicked (msg : String)
  | done (u : RateLimitState)
deriving DecidableEq, Repr

/-- The body of the rate-limit goroutine scheduled by `doAPICall`
(src/allyapi.go lines 151-166): index `[0]` into the
`X-Ratelimit-Remaining` header values (panicking when the header is
absent), `strconv.Atoi` it into `APICallsRemaining` (logging on error,
but storing the returned value — 0 — regardless), and when the stored
value is below 10 print the warning together with
`timestampToDate(resp.Header["X-Ratelimit-Expire"][0])` (again
panicking when that header is absent, or when `timestampToDate`
panics). -/
def rateLimitUpdate (hs : Headers) : UpdateOutcome :=
  match headerGet hs "X-Ratelimit-Remaining" with
  | [] => .panicked "index out of range"
  | v :: _ =>
    let pr := goParseIntChars v.toList
    if pr.1 < 10 then
      match headerGet hs "X-Ratelimit-Expire" with
      | [] => .panicked "index out of range"
      | e :: _ =>
        match timestampToDate e with
        | none => .panicked "index out of range"
        | some exp =>
          .done { callsRemaining := pr.1, loggedParseFailure := pr.2,
                  warning := some { remaining := pr.1, expiresAt := exp } }
    else
      .done { callsRemaining := pr.1, loggedParseFailure := pr.2, warning := none }

/-- The two rate-limit headers of a response, as `doAPICall` reads them. -/
def ratelimitHeaders (remaining expire : String) : Headers :=
  [("X-Ratelimit-Remaining", [remaining]), ("X-Ratelimit-Expire", [expire])]

end AllyApi

namespace AllyApi

theorem timestampLoop_none_of_late_segment :
    ∀ (segs : List (List Char)) (i : Nat) (acc : Int × Int) (j : Nat) (seg : List Char),
    segs[j]? = some seg → seg ≠ [] → 2 ≤ i + j →
    timestampLoop i segs acc = none := by
  intro segs
  induction segs with
  | nil =>
    intro i acc j seg hj
    simp at hj
  | cons s rest ih =>
    intro i acc j seg hj hne hge
    by_cases hs : s = []
    · rw [timestampLoop.eq_2]
      simp only [hs, if_true]
      cases j with
      | zero =>
        simp at hj
        rw [← hj] at hne
        exact absurd hs hne
      | succ j2 =>
        refine ih (i + 1) acc j2 seg ?_ hne (by omega)
        simpa using hj
    · by_cases hi : 2 ≤ i
      · rw [timestampLoop.eq_2]
        simp [hs, hi]
      · cases j with
        | zero => exact absurd hge (by omega)
        | succ j2 =>
          rw [timestampLoop.eq_2]
          simp only [hs, hi, if_false]
          refine ih (i + 1) _ j2 seg ?_ hne (by omega)
          simpa using hj

/-- C10: `timestampToDate` is total only when every dot-separated segment
past the second is empty: an input whose segment at index 2 or later is
non-empty (such as "1.2.3") drives the loop to write outside the fixed
two-element array, an index-out-of-range panic, so the function returns
no value. -/
theorem timestampToDate_panics_past_two_segments
    (str : String) (i : Nat) (seg : List Char)
    (hge : 2 ≤ i) (hj : (goSplitDot str.toList)[i]? = some seg) (hne : seg ≠ []) :
    timestampToDate str = none := by
  unfold timestampToDate
  rw [timestampLoop_none_of_late_segment (goSplitDot str.toList) 0 (0, 0) i seg hj hne
    (by omega)]
  rfl

/-- Witness: "1.2.3" has the non-empty segment "3" at index 2 and makes
`timestampToDate` panic. -/
theorem timestampToDate_panics_witness : timestampToDate "1.2.3" = none :=
  timestampToDate_panics_past_two_segments "1.2.3" 2 ['3'] (by omega) (by rfl) (by decide)

/-- C7: timestamp parsing decomposes "1609459200.500000000" exactly at the
dot: seconds 1609459200 (midnight 2021-01-01 UTC: 18628 days of 86400
seconds after the epoch, 51 years of which 13 contained a leap day) and
nanoseconds 500000000 (500 milliseconds). -/
theorem timestampToDate_example :
    timestampToDate "1609459200.500000000" = some (timeUnix 1609459200 500000000) ∧
    timeUnix 1609459200 500000000 = { sec := 1609459200, nsec := 500000000 } ∧
    (1609459200 : Int) = (51 * 365 + 13) * 86400 :=
  ⟨rfl, by decide, by decide⟩

end AllyApi

namespace AllyApi

/-- C5: after a response carrying X-Ratelimit-Remaining: 5 the tracker stores
5 in `callsRemaining` and prints the low-budget warning including the
expiration parsed from the expire header; after X-Ratelimit-Remaining: 50 it
stores 50 and prints no warning — the threshold is a stored value strictly
below 10. -/
theorem rateLimitUpdate_threshold (e e2 : String) (t : GoTime)
    (h : timestampToDate e = some t) :
    rateLimitUpdate (ratelimitHeaders "5" e)
      = .done { callsRemaining := 5, loggedParseFailure := false,
                warning := some { remaining := 5, expiresAt := t } } ∧
    rateLimitUpdate (ratelimitHeaders "50" e2)
      = .done { callsRemaining := 50, loggedParseFailure := false, warning := none } := by
  constructor
  · rw [show rateLimitUpdate (ratelimitHeaders "5" e)
        = (match timestampToDate e with
           | none => UpdateOutcome.panicked "index out of range"
           | some exp =>
             .done { callsRemaining := 5, loggedParseFailure := false,
                     warning := some { remaining := 5, expiresAt := exp } }) from rfl, h]
  · rfl

/-- Witness: the threshold behavior at the concrete expire header
"1609459200.500000000". -/
theorem rateLimitUpdate_threshold_witness :
    rateLimitUpdate (ratelimitHeaders "5" "1609459200.500000000")
      = .done { callsRemaining := 5, loggedParseFailure := false,
                warning := some { remaining := 5,
                                  expiresAt := timeUnix 1609459200 500000000 } } ∧
    rateLimitUpdate (ratelimitHeaders "50" "0")
      = .done { callsRemaining := 50, loggedParseFailure := false, warning := none } :=
  rateLimitUpdate_threshold "1609459200.500000000" "0" (timeUnix 1609459200 500000000) rfl

/-- C4 (code bug): the goroutine does not treat a missing or unparseable
X-Ratelimit-Remaining header as a recoverable, warning-free skip.  With the
header absent it panics indexing `[0]` into a nil slice; with the header
present but unparseable ("abc") it logs, stores 0 into `callsRemaining`, and
— because 0 < 10 — emits the low-budget warning (panicking if the expire
header is also absent), instead of skipping budget tracking for the call. -/
theorem rateLimitUpdate_missing_header_behavior :
    rateLimitUpdate [] = .panicked "index out of range" ∧
    rateLimitUpdate [("X-Ratelimit-Remaining", ["abc"])] = .panicked "index out of range" ∧
    rateLimitUpdate (ratelimitHeaders "abc" "99.5")
      = .done { callsRemaining := 0, loggedParseFailure := true,
                warning := some { remaining := 0, expiresAt := timeUnix 99 5 } } :=
  ⟨rfl, rfl, rfl⟩

end AllyApi

namespace AllyApi

/-- A decoded JSON value, as `json.Decoder.Decode` delivers one
top-level document.  Numbers are modelled as integers: every numeric
field of `apiResponse` is transmitted string-encoded and parses its own
string, so no claim involves a fractional bare JSON number. -/
inductive Json where
  | null
  | bool (b : Bool)
  | num (n : Int)
  | str (s : String)
  | arr (elems : List Json)
  | obj (fields : List (String × Json))
deriving Inhabited

/-- ASCII case folding, as `encoding/json` matches object keys to
struct field names case-insensitively. -/
def foldChar (c : Char) : Char :=
  if 'A' ≤ c ∧ c ≤ 'Z' then Char.ofNat (c.toNat + 32) else c

/-- Case-insensitive field-name match (`encoding/json`'s equalFold). -/
def eqFold (a b : String) : Bool :=
  a.toList.map foldChar == b.toList.map foldChar

/-- Escape the characters that this model's serializer escapes in a
JSON string: the quote and the backslash. -/
def escapeJChars : List Char → List Char
  | [] => []
  | c :: rest =>
    if c = '"' ∨ c = '\\' then '\\' :: c :: escapeJChars rest
    else c :: escapeJChars rest

/-- A JSON string literal for `s`. -/
def quoteJString (s : String) : String :=
  "\"" ++ String.mk (escapeJChars s.toList) ++ "\""

mutual

/-- The raw bytes of a JSON value, as the decoder would hand them to a
custom unmarshaler (compact form; the first byte is what
`quoteArray.UnmarshalJSON` switches on). -/
def serializeJson : Json → String
  | .null => "null"
  | .bool true => "true"
  | .bool false => "false"
  | .num n => toString n
  | .str s => quoteJString s
  | .arr es => "[" ++ serializeJsonElems es ++ "]"
  | .obj fs => "\x7b" ++ serializeJsonFields fs ++ "\x7d"

/-- Comma-separated serialization of array elements. -/
def serializeJsonElems : List Json → String
  | [] => ""
  | [e] => serializeJson e
  | e :: es => serializeJson e ++ "," ++ serializeJsonElems es

/-- Comma-separated serialization of object members. -/
def serializeJsonFields : List (String × Json) → String
  | [] => ""
  | [(k, v)] => quoteJString k ++ ":" ++ serializeJson v
  | (k, v) :: fs => quoteJString k ++ ":" ++ serializeJson v ++ "," ++ serializeJsonFields fs

end

end AllyApi

namespace AllyApi

/-- The anonymous `Quotes` struct of `apiResponse` (src/allyapi.go
lines 42-45): a quote-type tag and the polymorphic `quoteArray`. -/
structure QuotesPayload where
  quoteType : String := ""
  quote : QuoteArray := []
deriving DecidableEq, Repr, Inhabited

/-- The anonymous `Response` struct (src/allyapi.go lines 38-46); the Go
field `Error` is `errorMsg` here (`error` is reserved in Lean). -/
structure ResponsePayload where
  id : String := ""
  elapsedTime : Int := 0
  errorMsg : String := ""
  quotes : Option QuotesPayload := none
deriving DecidableEq, Repr, Inhabited

/-- The anonymous `Trade` struct (src/allyapi.go lines 47-56).  The
`float32 ,string` fields `Last` and `Vwap` keep their validated numeric
string (bit-level float semantics are out of the model's scope); `Exch`
is the decoded `map[string]interface{}` as an association list. -/
structure TradePayload where
  cvol : Int := 0
  dateTime : String := ""
  exch : List (String × Json) := []
  last : String := ""
  symbol : String := ""
  timestamp : Int := 0
  vl : Int := 0
  vwap : String := ""
deriving Inhabited

/-- The envelope `apiResponse` (src/allyapi.go lines 36-57). -/
structure ApiResponse where
  status : String := ""
  response : Option ResponsePayload := none
  trade : Option TradePayload := none
deriving Inhabited

/-- Decode a JSON value into a Go `string` field: a string literal
stores its text, `null` is a no-op (the field keeps its value), any
other shape is a type error. -/
def decodeJStringField (cur : String) : Json → Except GoError String
  | .str s => .ok s
  | .null => .ok cur
  | _ => .error (.typeMismatch "json: cannot unmarshal value into string field")

/-- Decode a `,string`-tagged integer field: the value must be a JSON
string holding a decimal integer (parsed as `strconv.ParseInt` does),
or `null` for a no-op; anything else is an error. -/
def decodeQuotedInt (cur : Int) : Json → Except GoError Int
  | .str s =>
    let pr := goParseIntChars s.toList
    if pr.2 then .error (.typeMismatch "json: invalid number in string-tagged field")
    else .ok pr.1
  | .null => .ok cur
  | _ => .error (.typeMismatch "json: invalid use of string struct tag")

/-- Skip a run of decimal digits. -/
def skipDigits : List Char → List Char
  | [] => []
  | c :: rest => if c.isDigit then skipDigits rest else c :: rest

/-- Whether the characters form a JSON number (optional minus, integer
part, optional fraction, optional exponent). -/
def validJNumber (l : List Char) : Bool :=
  let l1 := match l with
    | '-' :: r => r
    | x => x
  match l1 with
  | [] => false
  | c :: _ =>
    if c.isDigit then
      let r1 := skipDigits l1
      let r2 := match r1 with
        | '.' :: d :: r => if d.isDigit then skipDigits (d :: r) else '.' :: d :: r
        | x => x
      let r3 := match r2 with
        | [] => ([] : List Char)
        | e :: rest =>
          if e = 'e' || e = 'E' then
            match rest with
            | [] => e :: rest
            | s :: rest2 =>
              if s = '+' || s = '-' then
                match rest2 with
                | d2 :: _ => if d2.isDigit then skipDigits rest2 else e :: rest
                | [] => e :: rest
              else if s.isDigit then skipDigits rest
              else e :: rest
          else e :: rest
      r3 = []
    else false

/-- Decode a `,string`-tagged float field (modelled as its validated
numeric string). -/
def decodeQuotedFloat (cur : String) : Json → Except GoError String
  | .str s =>
    if validJNumber s.toList then .ok s
    else .error (.typeMismatch "json: invalid number in string-tagged field")
  | .null => .ok cur
  | _ => .error (.typeMismatch "json: invalid use of string struct tag")

/-- Apply one object member to the `Quotes` struct: `QuoteType` is a
string field; `Quote` hands the member value's raw bytes to
`quoteArray.UnmarshalJSON` with the current slice as receiver; unknown
keys are ignored. -/
def applyQuotesField (q : QuotesPayload) (k : String) (v : Json) :
    Except GoError QuotesPayload :=
  if eqFold k "QuoteType" then
    match decodeJStringField q.quoteType v with
    | .ok s => .ok { q with quoteType := s }
    | .error e => .error e
  else if eqFold k "Quote" then
    match unmarshalQuoteArray (serializeJson v).toList q.quote with
    | .ok qa => .ok { q with quote := qa }
    | .error e => .error e
  else .ok q

/-- Fold the members of a `Quotes` object in order. -/
def decodeQuotesFields : List (String × Json) → QuotesPayload → Except GoError QuotesPayload
  | [], q => .ok q
  | (k, v) :: rest, q =>
    match applyQuotesField q k v with
    | .ok q2 => decodeQuotesFields rest q2
    | .error e => .error e

/-- Apply one object member to the `Response` struct (tags: `@id`,
`ElapsedTime ,string`, `Error`, `Quotes`); unknown keys are ignored. -/
def applyResponseField (p : ResponsePayload) (k : String) (v : Json) :
    Except GoError ResponsePayload :=
  if eqFold k "@id" then
    match decodeJStringField p.id v with
    | .ok s => .ok { p with id := s }
    | .error e => .error e
  else if eqFold k "ElapsedTime" then
    match decodeQuotedInt p.elapsedTime v with
    | .ok n => .ok { p with elapsedTime := n }
    | .error e => .error e
  else if eqFold k "Error" then
    match decodeJStringField p.errorMsg v with
    | .ok s => .ok { p with errorMsg := s }
    | .error e => .error e
  else if eqFold k "Quotes" then
    match v with
    | .null => .ok { p with quotes := none }
    | .obj fs =>
      match decodeQuotesFields fs (p.quotes.getD {}) with
      | .ok q => .ok { p with quotes := some q }
      | .error e => .error e
    | _ => .error (.typeMismatch "json: cannot unmarshal value into struct")
  else .ok p

/-- Fold the members of a `Response` object in order. -/
def decodeResponseFields : List (String × Json) → ResponsePayload → Except GoError ResponsePayload
  | [], p => .ok p
  | (k, v) :: rest, p =>
    match applyResponseField p k v with
    | .ok p2 => decodeResponseFields rest p2
    | .error e => .error e

/-- Apply one object member to the `Trade` struct; unknown keys are
ignored. -/
def applyTradeField (p : TradePayload) (k : String) (v : Json) :
    Except GoError TradePayload :=
  if eqFold k "Cvol" then
    match decodeQuotedInt p.cvol v with
    | .ok n => .ok { p with cvol := n }
    | .error e => .error e
  else if eqFold k "DateTime" then
    match decodeJStringField p.dateTime v with
    | .ok s => .ok { p with dateTime := s }
    | .error e => .error e
  else if eqFold k "Exch" then
    match v with
    | .null => .ok p
    | .obj fs => .ok { p with exch := fs }
    | _ => .error (.typeMismatch "json: cannot unmarshal value into map")
  else if eqFold k "Last" then
    match decodeQuotedFloat p.last v with
    | .ok s => .ok { p with last := s }
    | .error e => .error e
  else if eqFold k "Symbol" then
    match decodeJStringField p.symbol v with
    | .ok s => .ok { p with symbol := s }
    | .error e => .error e
  else if eqFold k "Timestamp" then
    match decodeQuotedInt p.timestamp v with
    | .ok n => .ok { p with timestamp := n }
    | .error e => .error e
  else if eqFold k "Vl" then
    match decodeQuotedInt p.vl v with
    | .ok n => .ok { p with vl := n }
    | .error e => .error e
  else if eqFold k "Vwap" then
    match decodeQuotedFloat p.vwap v with
    | .ok s => .ok { p with vwap := s }
    | .error e => .error e
  else .ok p

/-- Fold the members of a `Trade` object in order. -/
def decodeTradeFields : List (String × Json) → TradePayload → Except GoError TradePayload
  | [], p => .ok p
  | (k, v) :: rest, p =>
    match applyTradeField p k v with
    | .ok p2 => decodeTradeFields rest p2
    | .error e => .error e

/-- Apply one object member to the `apiResponse` envelope: `Status` is
a string, `Response` and `Trade` decode their sub-structs (null sets
the pointer to nil); unknown keys are ignored. -/
def applyApiField (m : ApiResponse) (k : String) (v : Json) :
    Except GoError ApiResponse :=
  if eqFold k "Status" then
    match decodeJStringField m.status v with
    | .ok s => .ok { m with status := s }
    | .error e => .error e
  else if eqFold k "Response" then
    match v with
    | .null => .ok { m with response := none }
    | .obj fs =>
      match decodeResponseFields fs (m.response.getD {}) with
      | .ok p => .ok { m with response := some p }
      | .error e => .error e
    | _ => .error (.typeMismatch "json: cannot unmarshal value into struct")
  else if eqFold k "Trade" then
    match v with
    | .null => .ok { m with trade := none }
    | .obj fs =>
      match decodeTradeFields fs (m.trade.getD {}) with
      | .ok p => .ok { m with trade := some p }
      | .error e => .error e
    | _ => .error (.typeMismatch "json: cannot unmarshal value into struct")
  else .ok m

/-- Fold the members of an `apiResponse` object in order. -/
def decodeApiFields : List (String × Json) → ApiResponse → Except GoError ApiResponse
  | [], m => .ok m
  | (k, v) :: rest, m =>
    match applyApiField m k v with
    | .ok m2 => decodeApiFields rest m2
    | .error e => .error e

/-- One `decoder.Decode(&m)` step (src/allyapi.go lines 132-136): the
document must be an object (or `null`, leaving the zero value); its
members are decoded into the fresh `apiResponse`. -/
def decodeApiResponse : Json → Except GoError ApiResponse
  | .null => .ok {}
  | .obj fs => decodeApiFields fs {}
  | _ => .error (.typeMismatch "json: cannot unmarshal value into apiResponse")

end AllyApi

namespace AllyApi

/-- `strings.Join(parts, sep)`. -/
def goJoin (sep : String) : List String → String
  | [] => ""
  | [s] => s
  | s :: rest => s ++ sep ++ goJoin sep rest

/-- Insert a pair into a key-sorted list (Go marshals map keys in
sorted order). -/
def insertPairByKey (p : String × String) : List (String × String) → List (String × String)
  | [] => [p]
  | q :: rest => if p.1 ≤ q.1 then p :: q :: rest else q :: insertPairByKey p rest

/-- Sort map entries by key, as `encoding/json` does when marshalling a
Go map. -/
def sortPairsByKey : List (String × String) → List (String × String)
  | [] => []
  | p :: rest => insertPairByKey p (sortPairsByKey rest)

/-- Marshal one `map[string]string`. -/
def marshalStringMap (m : List (String × String)) : String :=
  "\x7b" ++ goJoin "," ((sortPairsByKey m).map fun kv =>
    quoteJString kv.1 ++ ":" ++ quoteJString kv.2) ++ "\x7d"

/-- Marshal a `quoteArray` (a JSON array of objects). -/
def marshalQuoteArray (qa : QuoteArray) : String :=
  "[" ++ goJoin "," (qa.map marshalStringMap) ++ "]"

/-- Assemble an object from the present (non-omitted) members. -/
def marshalObj (fs : List (String × String)) : String :=
  "\x7b" ++ goJoin "," (fs.map fun kv => quoteJString kv.1 ++ ":" ++ kv.2) ++ "\x7d"

/-- Marshal the `Quotes` struct with its `omitempty` options. -/
def marshalQuotes (q : QuotesPayload) : String :=
  marshalObj
    ((if q.quoteType = "" then [] else [("QuoteType", quoteJString q.quoteType)]) ++
     (if q.quote = [] then [] else [("Quote", marshalQuoteArray q.quote)]))

/-- Marshal the `Response` struct with its tags (`@id`,
`ElapsedTime ,string,omitempty`, `Error`, `Quotes`, all omitempty). -/
def marshalResponse (p : ResponsePayload) : String :=
  marshalObj
    ((if p.id = "" then [] else [("@id", quoteJString p.id)]) ++
     (if p.elapsedTime = 0 then [] else [("ElapsedTime", quoteJString (toString p.elapsedTime))]) ++
     (if p.errorMsg = "" then [] else [("Error", quoteJString p.errorMsg)]) ++
     (match p.quotes with
      | none => []
      | some q => [("Quotes", marshalQuotes q)]))

/-- Marshal the `Trade` struct with its tags (numeric fields string
encoded, all omitempty). -/
def marshalTrade (p : TradePayload) : String :=
  marshalObj
    ((if p.cvol = 0 then [] else [("Cvol", quoteJString (toString p.cvol))]) ++
     (if p.dateTime = "" then [] else [("DateTime", quoteJString p.dateTime)]) ++
     (match p.exch with
      | [] => []
      | efs => [("Exch", serializeJson (.obj efs))]) ++
     (if p.last = "" then [] else [("Last", quoteJString p.last)]) ++
     (if p.symbol = "" then [] else [("Symbol", quoteJString p.symbol)]) ++
     (if p.timestamp = 0 then [] else [("Timestamp", quoteJString (toString p.timestamp))]) ++
     (if p.vl = 0 then [] else [("Vl", quoteJString (toString p.vl))]) ++
     (if p.vwap = "" then [] else [("Vwap", quoteJString p.vwap)]))

/-- The call `json.MarshalIndent(m, "", "  ")` followed by
`fmt.Println` (src/allyapi.go lines 138-142): the serialized document
printed for one decoded response.  Field order and `omitempty` are
modelled; the indentation whitespace itself is elided (no claim
inspects the layout). -/
def marshalIndent (m : ApiResponse) : String :=
  marshalObj
    ((if m.status = "" then [] else [("Status", quoteJString m.status)]) ++
     (match m.response with
      | none => []
      | some p => [("Response", marshalResponse p)]) ++
     (match m.trade with
      | none => []
      | some p => [("Trade", marshalTrade p)]))

end AllyApi

namespace AllyApi

/-- Form data: `map[string][]string`, as `url.Values` /
`doAPICall`'s `data` parameter.  Modelled as an association list with
distinct keys. -/
abbrev FormData := List (String × List String)

/-- Whether a byte is left bare by `url.QueryEscape`. -/
def isUnreservedQueryByte (c : Char) : Bool :=
  c.isAlphanum || c = '-' || c = '_' || c = '.' || c = '~'

/-- An uppercase hexadecimal digit. -/
def hexDigit (n : Nat) : Char :=
  if n < 10 then Char.ofNat ('0'.toNat + n) else Char.ofNat ('A'.toNat + n - 10)

/-- `url.QueryEscape` at the character level: unreserved bytes pass
through, space becomes `+`, everything else is percent-encoded.
(Multi-byte UTF-8 sequences are out of the model's scope: symbols and
endpoints here are ASCII.) -/
def queryEscapeChars : List Char → List Char
  | [] => []
  | c :: rest =>
    if isUnreservedQueryByte c then c :: queryEscapeChars rest
    else if c = ' ' then '+' :: queryEscapeChars rest
    else '%' :: hexDigit (c.toNat / 16) :: hexDigit (c.toNat % 16) :: queryEscapeChars rest

/-- `url.QueryEscape` on a string. -/
def queryEscape (s : String) : String := String.mk (queryEscapeChars s.toList)

/-- Insert a form entry into a key-sorted list (`url.Values.Encode`
sorts its keys). -/
def insertFormByKey (p : String × List String) : FormData → FormData
  | [] => [p]
  | q :: rest => if p.1 ≤ q.1 then p :: q :: rest else q :: insertFormByKey p rest

/-- Sort form entries by key. -/
def sortFormByKey : FormData → FormData
  | [] => []
  | p :: rest => insertFormByKey p (sortFormByKey rest)

/-- The `k=v` pairs of the encoded form, keys sorted, each key's values
in order. -/
def encodeFormPairs : FormData → List String
  | [] => []
  | (k, vs) :: rest =>
    (vs.map fun v => queryEscape k ++ "=" ++ queryEscape v) ++ encodeFormPairs rest

/-- `url.Values.Encode()` (src/allyapi.go line 109). -/
def urlValuesEncode (d : FormData) : String :=
  goJoin "&" (encodeFormPairs (sortFormByKey d))

/-- The fixed REST base URL (src/allyapi.go line 97). -/
def restBase : String := "https://devapi.invest.ally.com/v1"

/-- `strings.HasPrefix(endpoint, "/")` as `doAPICall` tests it. -/
def startsWithSlash (s : String) : Bool :=
  match s.toList with
  | '/' :: _ => true
  | _ => false

/-- Resolve a relative endpoint against the REST base (src/allyapi.go
lines 96-98). -/
def resolveEndpoint (endpoint : String) : String :=
  if startsWithSlash endpoint then restBase ++ endpoint else endpoint

/-- The signed request `doAPICall` builds (src/allyapi.go lines
100-121): resolved URL, method, the form parameters (kept both as the
parameter map and as the URL-encoded body string), and the content type
set only for POST. -/
structure Request where
  url : String
  method : String
  form : Option FormData
  body : String
  contentType : Option String
deriving DecidableEq, Repr

/-- Build the request as `doAPICall` does before handing it to the
OAuth1-signing client. -/
def buildRequest (endpoint method : String) (data : Option FormData) : Request :=
  { url := resolveEndpoint endpoint
    method := method
    form := data
    body := match data with
      | some d => urlValuesEncode d
      | none => ""
    contentType := if method = "POST" then some "application/x-www-form-urlencoded" else none }

/-- The response the signed transport delivered: its headers and its
body as the sequence of top-level JSON documents `json.Decoder`
finds in it. -/
structure HttpResponse where
  headers : Headers
  body : List Json
deriving Inhabited

/-- What one `doAPICall` invocation does: the request it sent, the
documents it printed (in order), how many rate-limit goroutines it
scheduled (`wg.Add(1)` count), and its return value. -/
structure CallResult where
  request : Request
  prints : List String
  scheduledUpdates : Nat
  returned : String × Option GoError

/-- The decode loop (src/allyapi.go lines 129-143): while the decoder
has more documents, decode one and print it; a failure returns that
error at once — documents already printed stay printed. -/
def decodeLoop : List Json → List String × Option GoError
  | [] => ([], none)
  | j :: rest =>
    match decodeApiResponse j with
    | .error e => ([], some e)
    | .ok m =>
      let pr := decodeLoop rest
      (marshalIndent m :: pr.1, pr.2)

/-- `allyClient.doAPICall` (src/allyapi.go lines 94-169), given the
response the signed transport delivered: build the request, run the
decode/print loop over the body (returning ("", err) on a decode
failure, before any goroutine is scheduled), then schedule exactly one
rate-limit goroutine — whose body is `rateLimitUpdate` on the response
headers — and return ("", nil).  Transport and request-construction
errors belong to the out-of-scope collaborators: the response is
given. -/
def doAPICall (endpoint method : String) (data : Option FormData) (resp : HttpResponse) :
    CallResult :=
  match decodeLoop resp.body with
  | (prints, some e) =>
    { request := buildRequest endpoint method data, prints := prints,
      scheduledUpdates := 0, returned := ("", some e) }
  | (prints, none) =>
    { request := buildRequest endpoint method data, prints := prints,
      scheduledUpdates := 1, returned := ("", none) }

/-- `allyClient.get` (src/allyapi.go lines 171-173). -/
def get (url : String) (resp : HttpResponse) : CallResult :=
  doAPICall url "GET" none resp

/-- `allyClient.post` (src/allyapi.go lines 175-177). -/
def post (url : String) (data : FormData) (resp : HttpResponse) : CallResult :=
  doAPICall url "POST" (some data) resp

/-- `allyClient.streamQuotes` (src/allyapi.go lines 179-191): POST the
comma-joined symbols to the streaming host.  Its error check returns
("", err) on failure and the body otherwise — exactly the `post`
result, since the body is always "". -/
def streamQuotes (symbols : List String) (resp : HttpResponse) : CallResult :=
  post "https://devapi-stream.invest.ally.com/v1/market/quotes.json"
    [("symbols", [goJoin "," symbols])] resp

/-- `allyClient.getQuotes` (src/allyapi.go lines 193-204): POST the
comma-joined symbols to the batch quote endpoint. -/
def getQuotes (symbols : List String) (resp : HttpResponse) : CallResult :=
  post "/market/ext/quotes.json" [("symbols", [goJoin "," symbols])] resp

/-- `showAccounts` (src/allyapi.go lines 262-270): GET the account
listing. -/
def showAccounts (resp : HttpResponse) : CallResult :=
  get "/accounts.json" resp

/-- Decode every document of a body; `ok` exactly when the whole
sequence decodes. -/
def decodeAll : List Json → Except GoError (List ApiResponse)
  | [] => .ok []
  | j :: rest =>
    match decodeApiResponse j with
    | .error e => .error e
    | .ok m =>
      match decodeAll rest with
      | .ok ms => .ok (m :: ms)
      | .error e => .error e

end AllyApi

namespace AllyApi

theorem decodeLoop_all_ok {js : List Json} {ms : List ApiResponse}
    (h : decodeAll js = .ok ms) :
    decodeLoop js = (ms.map marshalIndent, none) := by
  induction js generalizing ms with
  | nil =>
    rw [decodeAll.eq_1] at h
    simp at h
    subst h
    rfl
  | cons j rest ih =>
    rw [decodeAll.eq_2] at h
    cases hd : decodeApiResponse j with
    | error e =>
      rw [hd] at h
      simp at h
    | ok m =>
      rw [hd] at h
      simp only [] at h
      cases ha : decodeAll rest with
      | error e =>
        rw [ha] at h
        simp at h
      | ok ms2 =>
        rw [ha] at h
        simp at h
        subst h
        rw [decodeLoop.eq_2, hd]
        simp [ih ha]

theorem decodeLoop_fails_after {js : List Json} {ms : List ApiResponse}
    {bad : Json} {e : GoError} (rest : List Json)
    (hpre : decodeAll js = .ok ms) (hbad : decodeApiResponse bad = .error e) :
    decodeLoop (js ++ bad :: rest) = (ms.map marshalIndent, some e) := by
  induction js generalizing ms with
  | nil =>
    rw [decodeAll.eq_1] at hpre
    simp at hpre
    subst hpre
    rw [List.nil_append, decodeLoop.eq_2, hbad]
    rfl
  | cons j tail ih =>
    rw [decodeAll.eq_2] at hpre
    cases hd : decodeApiResponse j with
    | error e2 =>
      rw [hd] at hpre
      simp at hpre
    | ok m =>
      rw [hd] at hpre
      simp only [] at hpre
      cases ha : decodeAll tail with
      | error e2 =>
        rw [ha] at hpre
        simp at hpre
      | ok ms2 =>
        rw [ha] at hpre
        simp at hpre
        subst hpre
        rw [List.cons_append, decodeLoop.eq_2, hd]
        simp [ih ha]

/-- C3 (amended): a single call whose body holds two decodable JSON
documents prints exactly their two serialized representations, in body
order — and schedules exactly ONE rate-limit update: `doAPICall` runs
`wg.Add(1)` and spawns one goroutine per call, after the whole decode
loop, regardless of how many documents the body held. -/
theorem doAPICall_two_documents (endpoint method : String) (data : Option FormData)
    (hs : Headers) (j1 j2 : Json) (m1 m2 : ApiResponse)
    (h1 : decodeApiResponse j1 = .ok m1) (h2 : decodeApiResponse j2 = .ok m2) :
    (doAPICall endpoint method data ⟨hs, [j1, j2]⟩).prints
      = [marshalIndent m1, marshalIndent m2] ∧
    (doAPICall endpoint method data ⟨hs, [j1, j2]⟩).scheduledUpdates = 1 := by
  have hl : decodeLoop [j1, j2] = ([marshalIndent m1, marshalIndent m2], none) := by
    have : decodeAll [j1, j2] = .ok [m1, m2] := by
      rw [decodeAll.eq_2, h1]
      simp only []
      rw [decodeAll.eq_2, h2]
      rfl
    simpa using decodeLoop_all_ok this
  constructor
  · show (doAPICall endpoint method data ⟨hs, [j1, j2]⟩).prints = _
    unfold doAPICall
    rw [hl]
  · unfold doAPICall
    rw [hl]

/-- Witness: two concrete documents (a status document and a bare
`null`) decoded through one call. -/
theorem doAPICall_two_documents_witness :
    (doAPICall "/accounts.json" "GET" none
        ⟨[], [.obj [("Status", .str "ok")], .null]⟩).prints
      = [marshalIndent { status := "ok" }, marshalIndent {}] ∧
    (doAPICall "/accounts.json" "GET" none
        ⟨[], [.obj [("Status", .str "ok")], .null]⟩).scheduledUpdates = 1 :=
  doAPICall_two_documents "/accounts.json" "GET" none [] _ _ _ _ rfl rfl

/-- C3 counterexample: with two documents in one body, the call
schedules one rate-limit update, not two — `wg.Add(1)` runs once per
call. -/
theorem doAPICall_two_documents_one_update :
    (doAPICall "/accounts.json" "GET" none
        ⟨[], [.obj [("Status", .str "a")], .obj [("Status", .str "b")]]⟩).prints.length = 2 ∧
    (doAPICall "/accounts.json" "GET" none
        ⟨[], [.obj [("Status", .str "a")], .obj [("Status", .str "b")]]⟩).scheduledUpdates = 1 ∧
    (doAPICall "/accounts.json" "GET" none
        ⟨[], [.obj [("Status", .str "a")], .obj [("Status", .str "b")]]⟩).scheduledUpdates ≠ 2 :=
  ⟨rfl, rfl, by decide⟩

end AllyApi

namespace AllyApi

/-- C6 (amended): a decode failure on any one JSON value aborts the
whole call with that error (no recovery, and no rate-limit update is
scheduled) — but the documents decoded BEFORE the failure have already
been printed, so a failed call can leave a partial prefix of its
response printed. -/
theorem decode_failure_aborts_call (endpoint method : String) (data : Option FormData)
    (hs : Headers) (pre : List Json) (ms : List ApiResponse) (bad : Json)
    (e : GoError) (rest : List Json)
    (hpre : decodeAll pre = .ok ms) (hbad : decodeApiResponse bad = .error e) :
    (doAPICall endpoint method data ⟨hs, pre ++ bad :: rest⟩).returned = ("", some e) ∧
    (doAPICall endpoint method data ⟨hs, pre ++ bad :: rest⟩).prints = ms.map marshalIndent ∧
    (doAPICall endpoint method data ⟨hs, pre ++ bad :: rest⟩).scheduledUpdates = 0 := by
  have hl := decodeLoop_fails_after rest hpre hbad
  refine ⟨?_, ?_, ?_⟩ <;> · unfold doAPICall; rw [hl]

/-- Witness: a `null` document decodes, then a document whose
`ElapsedTime` is not a number aborts the call. -/
theorem decode_failure_aborts_call_witness :
    (doAPICall "/accounts.json" "GET" none
        ⟨[], [.null, .obj [("Response", .obj [("ElapsedTime", .str "x")])]]⟩).returned
      = ("", some (.typeMismatch "json: invalid number in string-tagged field")) ∧
    (doAPICall "/accounts.json" "GET" none
        ⟨[], [.null, .obj [("Response", .obj [("ElapsedTime", .str "x")])]]⟩).prints
      = [marshalIndent {}] ∧
    (doAPICall "/accounts.json" "GET" none
        ⟨[], [.null, .obj [("Response", .obj [("ElapsedTime", .str "x")])]]⟩).scheduledUpdates
      = 0 :=
  decode_failure_aborts_call "/accounts.json" "GET" none [] [.null] [{}] _ _ [] rfl rfl

/-- C6 counterexample: a body whose first document decodes and whose
second does not leaves the call failed with exactly one representation
printed — neither the full response nor nothing, contradicting the
claim that a failing call prints nothing. -/
theorem partial_print_on_decode_failure :
    ((doAPICall "/accounts.json" "GET" none
        ⟨[], [.obj [("Status", .str "a")],
              .obj [("Response", .obj [("ElapsedTime", .str "x")])]]⟩).returned.2).isSome
      = true ∧
    (doAPICall "/accounts.json" "GET" none
        ⟨[], [.obj [("Status", .str "a")],
              .obj [("Response", .obj [("ElapsedTime", .str "x")])]]⟩).prints.length = 1 :=
  ⟨rfl, rfl⟩

/-- C8: `getQuotes` POSTs to the batch quote endpoint (resolved against
the REST base), sending the single form parameter `symbols` whose value
is the comma-join of the symbol list — order preserved and duplicates
retained, as the two concrete instances show. -/
theorem doAPICall_request (endpoint method : String) (data : Option FormData)
    (resp : HttpResponse) :
    (doAPICall endpoint method data resp).request = buildRequest endpoint method data := by
  unfold doAPICall
  split <;> rfl

theorem getQuotes_symbols_param :
    (∀ (symbols : List String) (resp : HttpResponse),
      (getQuotes symbols resp).request.method = "POST" ∧
      (getQuotes symbols resp).request.url
        = "https://devapi.invest.ally.com/v1/market/ext/quotes.json" ∧
      (getQuotes symbols resp).request.form = some [("symbols", [goJoin "," symbols])]) ∧
    (∀ resp : HttpResponse,
      (getQuotes ["AAPL", "MSFT"] resp).request.form = some [("symbols", ["AAPL,MSFT"])]) ∧
    (∀ resp : HttpResponse,
      (getQuotes ["A", "B", "A"] resp).request.form = some [("symbols", ["A,B,A"])]) := by
  refine ⟨fun symbols resp => ?_, fun resp => ?_, fun resp => ?_⟩
  · rw [show getQuotes symbols resp
        = doAPICall "/market/ext/quotes.json" "POST"
            (some [("symbols", [goJoin "," symbols])]) resp from rfl,
      doAPICall_request]
    exact ⟨rfl, rfl, rfl⟩
  · rw [show getQuotes ["AAPL", "MSFT"] resp
        = doAPICall "/market/ext/quotes.json" "POST"
            (some [("symbols", [goJoin "," ["AAPL", "MSFT"]])]) resp from rfl,
      doAPICall_request]
    rfl
  · rw [show getQuotes ["A", "B", "A"] resp
        = doAPICall "/market/ext/quotes.json" "POST"
            (some [("symbols", [goJoin "," ["A", "B", "A"]])]) resp from rfl,
      doAPICall_request]
    rfl

/-- C9: the orchestrator and every operation built on it return the
empty string: the decoded representation reaches the caller only
through printing during the call, never through the returned value. -/
theorem api_calls_return_empty_string
    (endpoint method : String) (data : Option FormData) (resp : HttpResponse)
    (symbols : List String) :
    (doAPICall endpoint method data resp).returned.1 = "" ∧
    (getQuotes symbols resp).returned.1 = "" ∧
    (streamQuotes symbols resp).returned.1 = "" ∧
    (showAccounts resp).returned.1 = "" := by
  refine ⟨?_, ?_, ?_, ?_⟩
  · unfold doAPICall
    split <;> rfl
  · unfold getQuotes post doAPICall
    split <;> rfl
  · unfold streamQuotes post doAPICall
    split <;> rfl
  · unfold showAccounts get doAPICall
    split <;> rfl

end AllyApi
